import Mathlib

/-!
Shallow embedding of the Virgil AI frontend project store and
generation-monitoring logic, together with a spec-level model of the
Merge Engine.  Definitions follow the TypeScript sources:

* `frontend/hooks/useRobustStorage.ts` — the localStorage-backed project
  store (`saveProjects`, `updateProject`, `forceCleanup`,
  `trackActiveProject`, `getActiveProjects`).
* `frontend/pages/index.tsx` — the page-level handlers
  (`updateProjectSafely`, `handleStopGeneration`,
  `handleRegenerateProject`, `pollProjectStatus`).
* `frontend/components/ProjectDetails.tsx` — `isGenerating` and the
  gating of the stop button.
* `useProjectStorage.ts` — the `Project` interface.

Timestamps (ISO strings in the source) are modelled as natural numbers;
comparisons of `new Date(s).getTime()` values become comparisons of
these numbers.  The JSON serialization length used for the storage-size
check is modelled as an arbitrary function `strLen` supplied as a
parameter, since no property below depends on its concrete value.
-/

/-- One test suite entry of `Project.test_results`
(`{ success: boolean; logs?: string }`). -/
structure SuiteResult where
  success : Bool
  logs : Option String
deriving Repr, DecidableEq

/-- The `test_results` field of the `Project` interface in
`useProjectStorage.ts`. -/
structure TestResults where
  success : Bool
  frontend : Option SuiteResult
  backend : Option SuiteResult
  e2e : Option SuiteResult
deriving Repr, DecidableEq

/-- The `Project` interface of `useProjectStorage.ts`, restricted to the
fields the verified operations read or write.  `created_at`,
`updated_at` and `stopped_at` are ISO date strings in the source,
modelled as epoch numbers. -/
structure Project where
  project_id : String
  project_name : String
  status : String
  created_at : Nat
  updated_at : Option Nat := none
  current_iteration : Option Nat := none
  test_results : Option TestResults := none
  stopped_by_user : Option Bool := none
  stopped_at : Option Nat := none
deriving Repr, DecidableEq

/-- A `Partial<Project>` update object, as passed to `updateProject`.
`none` means the key is absent from the object; `some v` means the key
is present with value `v` (for optional `Project` fields, `some none`
models a key explicitly set to `undefined`, as in
`test_results: undefined` in `handleRegenerateProject`). -/
structure ProjectUpdate where
  project_id : Option String := none
  project_name : Option String := none
  status : Option String := none
  created_at : Option Nat := none
  current_iteration : Option (Option Nat) := none
  test_results : Option (Option TestResults) := none
  stopped_by_user : Option (Option Bool) := none
  stopped_at : Option (Option Nat) := none
deriving Repr, DecidableEq

/-- The object spread `{ ...p, ...updates, updated_at: new Date().toISOString() }`
performed by `updateProject` in `useRobustStorage.ts`. -/
def applyUpdate (now : Nat) (p : Project) (u : ProjectUpdate) : Project :=
  { project_id := u.project_id.getD p.project_id
    project_name := u.project_name.getD p.project_name
    status := u.status.getD p.status
    created_at := u.created_at.getD p.created_at
    current_iteration := u.current_iteration.getD p.current_iteration
    test_results := u.test_results.getD p.test_results
    stopped_by_user := u.stopped_by_user.getD p.stopped_by_user
    stopped_at := u.stopped_at.getD p.stopped_at
    updated_at := some now }

/-- `MAX_PROJECTS` in `useRobustStorage.ts`. -/
def MAX_PROJECTS : Nat := 200

/-- `MAX_STORAGE_SIZE` in `useRobustStorage.ts` (8 MB). -/
def MAX_STORAGE_SIZE : Nat := 8 * 1024 * 1024

/-- The comparator of `saveProjects`:
`(a, b) => new Date(b.created_at).getTime() - new Date(a.created_at).getTime()`
sorts newest first, i.e. `a` precedes `b` when `b.created_at ≤ a.created_at`. -/
def newestFirst (a b : Project) : Prop := b.created_at ≤ a.created_at

instance : DecidableRel newestFirst := fun a b => Nat.decLe b.created_at a.created_at

instance : IsTotal Project newestFirst :=
  ⟨fun a b => Nat.le_total b.created_at a.created_at⟩

instance : IsTrans Project newestFirst :=
  ⟨fun _ _ _ h h2 => Nat.le_trans h2 h⟩

/-- The try block of `saveProjects` in `useRobustStorage.ts` — the
list it attempts to persist when `localStorage.setItem` does not
throw: sort newest first, keep at most `MAX_PROJECTS`, and if the
serialized size of that list exceeds `MAX_STORAGE_SIZE / 2`, keep only
the first `MAX_PROJECTS / 2` entries.  `strLen` models
`JSON.stringify(limitedProjects).length`.  The array sort is stable
(ES2019), modelled by the stable `List.insertionSort`.  The catch
block (quota errors and the emergency fallback) is modelled by
`saveProjectsCatch` below. -/
def saveProjects (strLen : List Project → Nat) (newProjects : List Project) : List Project :=
  let sortedProjects := List.insertionSort newestFirst newProjects
  let limitedProjects := sortedProjects.take MAX_PROJECTS
  if strLen limitedProjects > MAX_STORAGE_SIZE / 2 then
    limitedProjects.take (MAX_PROJECTS / 2)
  else
    limitedProjects

/-- `saveProjects` in `useRobustStorage.ts` with its catch block:
`quotaFails l` models whether `localStorage.setItem` throws
`QuotaExceededError` when asked to store the list `l`.  The try block
attempts to persist `saveProjects strLen newProjects`; on a quota
error, the emergency cleanup persists the first 50 entries of the raw
`newProjects` input — in input order, unsorted — and still returns
`true`; if even that write throws, the call returns `false` and
nothing is written.  Result: the returned flag and the list written to
storage, if any. -/
def saveProjectsCatch (strLen : List Project → Nat) (quotaFails : List Project → Bool)
    (newProjects : List Project) : Bool × Option (List Project) :=
  let attempt := saveProjects strLen newProjects
  if quotaFails attempt then
    let emergencyProjects := newProjects.take 50
    if quotaFails emergencyProjects then (false, none)
    else (true, some emergencyProjects)
  else (true, some attempt)

/-- `getProject` in `useRobustStorage.ts`: `projects.find(p => p.project_id === projectId)`. -/
def getProject (projects : List Project) (projectId : String) : Option Project :=
  projects.find? (fun p => p.project_id == projectId)

/-- `updateProject` in `useRobustStorage.ts`: map the update over all
projects with the given id, then persist through `saveProjects`. -/
def updateProject (strLen : List Project → Nat) (now : Nat) (projectId : String)
    (updates : ProjectUpdate) (projects : List Project) : List Project :=
  saveProjects strLen
    (projects.map (fun p => if p.project_id == projectId then applyUpdate now p updates else p))

/-- `removeProject` in `useRobustStorage.ts`. -/
def removeProject (strLen : List Project → Nat) (projectId : String)
    (projects : List Project) : List Project :=
  saveProjects strLen (projects.filter (fun p => p.project_id != projectId))

/-- `updateProjectSafely` in `pages/index.tsx`: when the project exists,
overwrite `project_name` in the update with the existing name before
delegating to `updateProject`; otherwise update normally. -/
def updateProjectSafely (strLen : List Project → Nat) (now : Nat) (projectId : String)
    (newData : ProjectUpdate) (projects : List Project) : List Project :=
  match getProject projects projectId with
  | some existingProject =>
      updateProject strLen now projectId
        { newData with project_name := some existingProject.project_name } projects
  | none => updateProject strLen now projectId newData projects

/-- `forceCleanup` in `useRobustStorage.ts`: keep the projects created
strictly after the cutoff date (30 days before now), capped at 100,
persist them via `saveProjects`, and report
`{removed, remaining}`.  `cutoff` models the value of `cutoffDate`. -/
def forceCleanup (strLen : List Project → Nat) (cutoff : Nat)
    (projects : List Project) : List Project × Nat × Nat :=
  let recentProjects := (projects.filter (fun p => cutoff < p.created_at)).take 100
  let persisted := saveProjects strLen recentProjects
  (persisted, projects.length - recentProjects.length, recentProjects.length)

/-! ### Page-level state (`pages/index.tsx`) -/

/-- JavaScript `Set.add`: append the element unless it is already a
member (JS sets preserve insertion order). -/
def setAdd (x : String) (s : List String) : List String :=
  if x ∈ s then s else s ++ [x]

/-- JavaScript `Set.delete`. -/
def setDelete (x : String) (s : List String) : List String :=
  s.filter (fun y => y ≠ x)

/-- The pieces of `HomePage` component state the verified handlers
touch: the persisted project list, the `polling` set and the
`activeProjects` set. -/
structure HomeState where
  projects : List Project
  polling : List String
  activeProjects : List String
deriving Repr, DecidableEq

/-- The update object passed to `updateProjectSafely` by
`handleStopGeneration` in `pages/index.tsx`:
`{ status: 'failed', stopped_by_user: true, stopped_at: <now> }`. -/
def stopGenerationUpdate (now : Nat) : ProjectUpdate :=
  { status := some "failed"
    stopped_by_user := some (some true)
    stopped_at := some (some now) }

/-- State effect of `handleStopGeneration` in `pages/index.tsx` after a
successful `api.stopGeneration` call: apply `stopGenerationUpdate`
through `updateProjectSafely`, delete the project from `polling`, and
untrack it from `activeProjects`. -/
def handleStopGeneration (strLen : List Project → Nat) (now : Nat) (projectId : String)
    (st : HomeState) : HomeState :=
  { projects := updateProjectSafely strLen now projectId (stopGenerationUpdate now) st.projects
    polling := setDelete projectId st.polling
    activeProjects := setDelete projectId st.activeProjects }

/-- The update object passed to `updateProjectSafely` by
`handleRegenerateProject` in `pages/index.tsx`:
`{ status: 'processing', current_iteration: 0, test_results: undefined }`. -/
def regenerateUpdate : ProjectUpdate :=
  { status := some "processing"
    current_iteration := some (some 0)
    test_results := some none }

/-- State effect of `handleRegenerateProject` in `pages/index.tsx`
after a successful `api.generateProject` call (the subsequent
`pollProjectStatus` start is modelled separately by `startPolling`). -/
def handleRegenerateProject (strLen : List Project → Nat) (now : Nat) (projectId : String)
    (st : HomeState) : HomeState :=
  { st with
    projects := updateProjectSafely strLen now projectId regenerateUpdate st.projects }

/-- Entry guard of `pollProjectStatus` (and of
`pollProjectStatusWithNamePreservation`) in `pages/index.tsx`:
`if (polling.has(projectId)) return;` — when the project is already
being polled the call returns immediately without starting a loop
(`false`); otherwise it tracks the project as active, adds it to
`polling` and starts the loop (`true`). -/
def startPolling (projectId : String) (st : HomeState) : HomeState × Bool :=
  if projectId ∈ st.polling then (st, false)
  else
    ({ st with
        polling := setAdd projectId st.polling
        activeProjects := setAdd projectId st.activeProjects }, true)

/-- The halting test of the `poll` closures in `pages/index.tsx`
(both `pollProjectStatus` and `pollProjectStatusWithNamePreservation`):
`status.status === 'completed' || status.status === 'failed' || status.status === 'error'`. -/
def pollTerminal (status : String) : Bool :=
  status == "completed" || status == "failed" || status == "error"

/-- One step of the `poll` closure of `pollProjectStatus`, given the
`status.status` string reported by the backend: when `pollTerminal`
holds, the project is removed from `polling` and `activeProjects` and
no further poll is scheduled (`false`); otherwise the state is
unchanged and `setTimeout(poll, 5000)` schedules another poll
(`true`). -/
def pollStep (projectId : String) (reportedStatus : String) (st : HomeState) : HomeState × Bool :=
  if pollTerminal reportedStatus then
    ({ st with
        polling := setDelete projectId st.polling
        activeProjects := setDelete projectId st.activeProjects }, false)
  else
    (st, true)

/-- `isGenerating` in `components/ProjectDetails.tsx`:
`['processing', 'generating_code', 'generating_tests', 'running_tests'].includes(project.status)`. -/
def isGenerating (status : String) : Bool :=
  ["processing", "generating_code", "generating_tests", "running_tests"].contains status

/-- Rendering condition of the stop control in
`components/ProjectDetails.tsx`:
`{isGenerating() && onStopGeneration && (<StopGenerationButton …/>)}`. -/
def stopButtonShown (p : Project) (hasStopHandler : Bool) : Bool :=
  isGenerating p.status && hasStopHandler

/-! ### The active-projects records in localStorage (`useRobustStorage.ts`) -/

/-- `ACTIVE_PROJECTS_KEY` in `useRobustStorage.ts`. -/
def ACTIVE_PROJECTS_KEY : String := "ai_code_generator_active_projects"

/-- localStorage restricted to keys holding JSON string arrays,
modelled as an association list; `setItem` conses the new binding and
`getItem` takes the first binding for the key. -/
abbrev LocalStorage := List (String × List String)

/-- `localStorage.getItem(key)` (parsed). -/
def lsGet (ls : LocalStorage) (key : String) : Option (List String) :=
  List.lookup key ls

/-- `localStorage.setItem(key, JSON.stringify(v))`. -/
def lsSet (ls : LocalStorage) (key : String) (v : List String) : LocalStorage :=
  (key, v) :: ls

/-- `trackActiveProject` in `useRobustStorage.ts`: read the list stored
under `ACTIVE_PROJECTS_KEY` (defaulting to `[]`), push the id if it is
not already present, write the list back, and return `true`. -/
def trackActiveProject (projectId : String) (ls : LocalStorage) : Bool × LocalStorage :=
  let activeProjects := (lsGet ls ACTIVE_PROJECTS_KEY).getD []
  if projectId ∈ activeProjects then (true, ls)
  else (true, lsSet ls ACTIVE_PROJECTS_KEY (activeProjects ++ [projectId]))

/-- `untrackActiveProject` in `useRobustStorage.ts`. -/
def untrackActiveProject (projectId : String) (ls : LocalStorage) : Bool × LocalStorage :=
  match lsGet ls ACTIVE_PROJECTS_KEY with
  | none => (true, ls)
  | some activeProjects =>
      (true, lsSet ls ACTIVE_PROJECTS_KEY (activeProjects.filter (fun i => i ≠ projectId)))

/-- `getActiveProjects` in `useRobustStorage.ts`: it reads the literal
key `'active_projects'`, not `ACTIVE_PROJECTS_KEY`. -/
def getActiveProjects (ls : LocalStorage) : List String :=
  (lsGet ls "active_projects").getD []

/-! ### The Merge Engine (spec model) -/

/-- A `map(path→content)` file set (`codeFiles` of an Iteration, or the
`files` of a FinalArtifact). -/
abbrev FileSet := List (String × String)

/-- Modelled from the spec: the Merge Engine is not part of the
frontend sources (spec section 4.3).  `lastWrite history path` is the
content retained for `path`: the content written by the highest-indexed
Iteration of the committed history that wrote that path
(last-writer-wins by iteration index), or `none` when no Iteration
wrote it. -/
def lastWrite : List FileSet → String → Option String
  | [], _ => none
  | fs :: rest, path =>
      match lastWrite rest path with
      | some c => some c
      | none => List.lookup path fs

/-- Modelled from the spec: the set of file paths written anywhere in
the Iteration history, each path once. -/
def mergePaths (history : List FileSet) : List String :=
  (history.foldr (fun fs acc => fs.map Prod.fst ++ acc) []).dedup

/-- Modelled from the spec (spec section 4.3): the Merge Engine scans
Iterations from index 0 upward and, for each file path, retains the
content from the highest-indexed Iteration that wrote that path.  The
result is the final artifact file set. -/
def merge (history : List FileSet) : FileSet :=
  (mergePaths history).filterMap
    (fun path => (lastWrite history path).map (fun c => (path, c)))

/-- Modelled from the spec: replaying the merge output as a committed
history — a single Iteration whose file set is the final artifact.  The
spec states `merge(history) == merge(merge_input_replayed(history))`. -/
def merge_input_replayed (history : List FileSet) : List FileSet :=
  [merge history]

/-! ### Concrete probe values used to evaluate the operations -/

/-- A serialization-length model that never triggers the size cleanup. -/
def probeLen : List Project → Nat := fun _ => 0

/-- A serialization-length model that always exceeds `MAX_STORAGE_SIZE / 2`. -/
def probeLenBig : List Project → Nat := fun _ => 5000000

/-- A stored project in an active generating state. -/
def alphaProject : Project :=
  { project_id := "p1"
    project_name := "Alpha"
    status := "processing"
    created_at := 5
    current_iteration := some 3 }

/-- An update that tries to rename `alphaProject` while completing it. -/
def renameUpdate : ProjectUpdate :=
  { project_name := some "Beta"
    status := some "completed" }

/-- A second stored project, newer than `alphaProject`. -/
def betaProject : Project :=
  { project_id := "p2"
    project_name := "Beta"
    status := "completed"
    created_at := 9 }

/-- A storage model where exactly the sorted, limited attempt list
`[betaProject, alphaProject]` hits the quota, while the emergency
write succeeds. -/
def quotaOnSortedPair : List Project → Bool :=
  fun l => l == [betaProject, alphaProject]

/-! ### Helper lemmas about the store -/

theorem saveProjects_subset (strLen : List Project → Nat) (l : List Project) :
    ∀ q ∈ saveProjects strLen l, q ∈ l := by
  intro q hq
  have hsort := (List.perm_insertionSort newestFirst l).subset
  unfold saveProjects at hq
  dsimp only at hq
  split at hq
  · exact hsort (List.take_subset _ _ (List.take_subset _ _ hq))
  · exact hsort (List.take_subset _ _ hq)

theorem saveProjects_of_length_le (strLen : List Project → Nat) (l : List Project)
    (h : l.length ≤ MAX_PROJECTS / 2) :
    saveProjects strLen l = List.insertionSort newestFirst l := by
  have h100 : l.length ≤ 100 := by simpa [MAX_PROJECTS] using h
  have hlen : (List.insertionSort newestFirst l).length = l.length :=
    (List.perm_insertionSort newestFirst l).length_eq
  have h200 : (List.insertionSort newestFirst l).length ≤ MAX_PROJECTS := by
    rw [hlen]
    simp only [MAX_PROJECTS]
    omega
  have htake : (List.insertionSort newestFirst l).take MAX_PROJECTS =
      List.insertionSort newestFirst l := List.take_of_length_le h200
  have htake100 : (List.insertionSort newestFirst l).take (MAX_PROJECTS / 2) =
      List.insertionSort newestFirst l := by
    refine List.take_of_length_le ?_
    rw [hlen]
    simp only [MAX_PROJECTS]
    omega
  unfold saveProjects
  dsimp only
  rw [htake]
  split
  · exact htake100
  · rfl

theorem getProject_eq_some (ps : List Project) (pid : String) (p : Project)
    (hnd : (ps.map Project.project_id).Nodup) (hp : p ∈ ps) (hid : p.project_id = pid) :
    getProject ps pid = some p := by
  have hsome : (ps.find? (fun q => q.project_id == pid)).isSome := by
    rw [List.find?_isSome]
    exact ⟨p, hp, by simp [hid]⟩
  obtain ⟨q, hq⟩ := Option.isSome_iff_exists.mp hsome
  have hqmem : q ∈ ps := List.mem_of_find?_eq_some hq
  have hqid : q.project_id = pid := by
    have := List.find?_some hq
    simpa using this
  have : q = p := List.inj_on_of_nodup_map hnd hqmem hp (by rw [hqid, hid])
  rw [getProject, hq, this]

theorem updateProjectSafely_eq_applyUpdate (strLen : List Project → Nat) (now : Nat)
    (pid : String) (u : ProjectUpdate) (ps : List Project) (p : Project)
    (hnd : (ps.map Project.project_id).Nodup) (hp : p ∈ ps) (hid : p.project_id = pid) :
    ∀ q ∈ updateProjectSafely strLen now pid u ps, q.project_id = pid →
      q = applyUpdate now p { u with project_name := some p.project_name } := by
  intro q hq hqid
  rw [updateProjectSafely, getProject_eq_some ps pid p hnd hp hid] at hq
  rw [updateProject] at hq
  have hq2 := saveProjects_subset strLen _ q hq
  obtain ⟨p2, hp2, hmap⟩ := List.mem_map.mp hq2
  by_cases hcase : p2.project_id == pid
  · rw [if_pos hcase] at hmap
    have hp2id : p2.project_id = pid := by simpa using hcase
    have : p2 = p := List.inj_on_of_nodup_map hnd hp2 hp (by rw [hp2id, hid])
    rw [← hmap, this]
  · rw [if_neg hcase] at hmap
    exfalso
    rw [← hmap] at hqid
    exact hcase (by simp [hqid])

/-! ### Helper lemmas about the Merge Engine model -/

theorem mem_mergePaths (history : List FileSet) (path : String) :
    path ∈ mergePaths history ↔ ∃ fs ∈ history, path ∈ fs.map Prod.fst := by
  rw [mergePaths, List.mem_dedup]
  induction history with
  | nil => simp
  | cons fs rest ih => simp [List.mem_append, ih]

theorem lastWrite_isSome (history : List FileSet) (path : String)
    (h : ∃ fs ∈ history, path ∈ fs.map Prod.fst) : (lastWrite history path).isSome := by
  induction history with
  | nil => simp at h
  | cons fs rest ih =>
    rw [lastWrite]
    obtain ⟨fs0, hfs0, hpath⟩ := h
    rcases List.mem_cons.mp hfs0 with heq | hrest
    · cases hlw : lastWrite rest path with
      | some c => simp
      | none =>
        subst heq
        simp only [Option.isSome_iff_exists]
        have : (List.lookup path fs0).isSome := by
          rw [List.lookup_isSome_iff]
          obtain ⟨pr, hpr, hfst⟩ := List.mem_map.mp hpath
          exact ⟨pr, hpr, by simp [hfst]⟩
        obtain ⟨c, hc⟩ := Option.isSome_iff_exists.mp this
        exact ⟨c, hc⟩
    · have := ih ⟨fs0, hrest, hpath⟩
      cases hlw : lastWrite rest path with
      | some c => simp
      | none => rw [hlw] at this; simp at this

theorem keys_filterMap_of_isSome (g : String → Option String) (ks : List String)
    (h : ∀ p ∈ ks, (g p).isSome) :
    (ks.filterMap (fun p => (g p).map (fun c => (p, c)))).map Prod.fst = ks := by
  induction ks with
  | nil => rfl
  | cons k rest ih =>
    obtain ⟨c, hc⟩ := Option.isSome_iff_exists.mp (h k (List.mem_cons_self k rest))
    rw [List.filterMap_cons]
    simp only [hc, Option.map_some']
    rw [List.map_cons]
    rw [ih (fun p hp => h p (List.mem_cons_of_mem k hp))]

theorem lookup_filterMap (g : String → Option String) (ks : List String) (q : String)
    (hnd : ks.Nodup) :
    List.lookup q (ks.filterMap (fun p => (g p).map (fun c => (p, c)))) =
      if q ∈ ks then g q else none := by
  induction ks with
  | nil => simp
  | cons k rest ih =>
    have hknotin : k ∉ rest := (List.nodup_cons.mp hnd).1
    have hndrest : rest.Nodup := (List.nodup_cons.mp hnd).2
    rw [List.filterMap_cons]
    cases hgk : g k with
    | some c =>
      simp only [Option.map_some']
      rw [List.lookup_cons]
      by_cases hqk : q = k
      · subst hqk
        simp [hgk]
      · have : (q == k) = false := by simp [hqk]
        rw [this]
        rw [ih hndrest]
        simp [List.mem_cons, hqk]
    | none =>
      simp only [Option.map_none']
      rw [ih hndrest]
      by_cases hqk : q = k
      · subst hqk
        simp [hknotin, hgk]
      · simp [List.mem_cons, hqk]

theorem nodup_mergePaths (history : List FileSet) : (mergePaths history).Nodup :=
  List.nodup_dedup _

theorem map_fst_merge (history : List FileSet) :
    (merge history).map Prod.fst = mergePaths history := by
  rw [merge]
  refine keys_filterMap_of_isSome _ _ ?_
  intro p hp
  exact lastWrite_isSome history p ((mem_mergePaths history p).mp hp)

theorem lookup_merge (history : List FileSet) (path : String) (h : path ∈ mergePaths history) :
    List.lookup path (merge history) = lastWrite history path := by
  rw [merge, lookup_filterMap _ _ _ (nodup_mergePaths history), if_pos h]

theorem lastWrite_singleton (fs : FileSet) (path : String) :
    lastWrite [fs] path = List.lookup path fs := by
  rw [lastWrite, lastWrite]

theorem mergePaths_replayed (history : List FileSet) :
    mergePaths (merge_input_replayed history) = mergePaths history := by
  rw [merge_input_replayed]
  have : mergePaths [merge history] = ((merge history).map Prod.fst).dedup := by
    rw [mergePaths]
    simp
  rw [this, map_fst_merge]
  exact List.dedup_eq_self.mpr (nodup_mergePaths history)

/-! ### Claim theorems -/

/-- C1: the claim says a successful stop request leaves the project in the
distinct terminal status `Stopped`, not `Failed`.  Evaluating
`handleStopGeneration` at a project in an active generating state shows
the code stores status `"failed"` (with `stopped_by_user = true` and a
`stopped_at` timestamp) and removes the project from polling; no
`"stopped"` status exists anywhere in the frontend model. -/
theorem stopGeneration_sets_failed_not_stopped :
    ((getProject (handleStopGeneration probeLen 99 "p1"
        { projects := [alphaProject], polling := ["p1"], activeProjects := ["p1"] }).projects
        "p1").map Project.status = some "failed")
    ∧ ((getProject (handleStopGeneration probeLen 99 "p1"
        { projects := [alphaProject], polling := ["p1"], activeProjects := ["p1"] }).projects
        "p1").map Project.status ≠ some "stopped")
    ∧ ((getProject (handleStopGeneration probeLen 99 "p1"
        { projects := [alphaProject], polling := ["p1"], activeProjects := ["p1"] }).projects
        "p1").bind Project.stopped_by_user = some true)
    ∧ (handleStopGeneration probeLen 99 "p1"
        { projects := [alphaProject], polling := ["p1"], activeProjects := ["p1"] }).polling
        = [] := by
  decide

/-- C2 counterexample: the stop control is offered for a project whose
status is `"processing"`, which is not one of the three active
generating sub-states named by the claim. -/
theorem stopOffered_outside_generating_states :
    stopButtonShown alphaProject true = true
    ∧ "processing" ∉ (["generating_code", "generating_tests", "running_tests"] : List String) := by
  decide

/-- C2 amended: the stop control is offered exactly when the project
status is one of `processing`, `generating_code`, `generating_tests`,
`running_tests` (the `isGenerating` set of `ProjectDetails.tsx`);
outside this set the control is simply not rendered. -/
theorem stopOffered_iff (p : Project) :
    stopButtonShown p true = true ↔
      (p.status = "processing" ∨ p.status = "generating_code" ∨
        p.status = "generating_tests" ∨ p.status = "running_tests") := by
  simp [stopButtonShown, isGenerating]

/-- C2 witness: the amended equivalence evaluated at a processing
project. -/
theorem stopOffered_iff_witness : stopButtonShown alphaProject true = true :=
  (stopOffered_iff alphaProject).mpr (Or.inl rfl)

/-- C3: starting a polling loop for a project that is already being
polled is an immediate no-op (same state, no loop started), and the
persisted active-projects list never acquires duplicates through
`trackActiveProject`. -/
theorem atMostOneActiveLoop (pid : String) (st : HomeState) (ls : LocalStorage)
    (hpoll : pid ∈ st.polling)
    (hnd : ((lsGet ls ACTIVE_PROJECTS_KEY).getD []).Nodup) :
    startPolling pid st = (st, false)
    ∧ ((lsGet (trackActiveProject pid ls).2 ACTIVE_PROJECTS_KEY).getD []).Nodup := by
  constructor
  · rw [startPolling, if_pos hpoll]
  · by_cases hmem : pid ∈ (lsGet ls ACTIVE_PROJECTS_KEY).getD []
    · have heq : trackActiveProject pid ls = (true, ls) := by
        rw [trackActiveProject]
        simp [hmem]
      rw [heq]
      exact hnd
    · have heq : trackActiveProject pid ls =
          (true, lsSet ls ACTIVE_PROJECTS_KEY
            (((lsGet ls ACTIVE_PROJECTS_KEY).getD []) ++ [pid])) := by
        rw [trackActiveProject]
        simp [hmem]
      rw [heq]
      have hget : lsGet (lsSet ls ACTIVE_PROJECTS_KEY
          (((lsGet ls ACTIVE_PROJECTS_KEY).getD []) ++ [pid])) ACTIVE_PROJECTS_KEY =
          some (((lsGet ls ACTIVE_PROJECTS_KEY).getD []) ++ [pid]) := by
        rw [lsGet, lsSet]
        exact List.lookup_cons_self
      rw [hget]
      simp only [Option.getD_some]
      refine List.Nodup.append hnd (List.nodup_singleton pid) ?_
      intro a ha hb
      rw [List.mem_singleton] at hb
      subst hb
      exact hmem ha

/-- C3 witness: the no-op and nodup facts at concrete inputs. -/
theorem atMostOneActiveLoop_witness :
    startPolling "p1" { projects := [], polling := ["p1"], activeProjects := ["p1"] } =
      ({ projects := [], polling := ["p1"], activeProjects := ["p1"] }, false)
    ∧ ((lsGet (trackActiveProject "p1" ([] : LocalStorage)).2 ACTIVE_PROJECTS_KEY).getD
        []).Nodup :=
  atMostOneActiveLoop "p1" { projects := [], polling := ["p1"], activeProjects := ["p1"] }
    ([] : LocalStorage) (by decide) (by decide)

/-- C4 counterexample: `"stopped"` belongs to the terminal set named by
the claim, yet the poll step schedules another poll when the backend
reports it — the monitor only halts on `completed`, `failed` and
`error`. -/
theorem pollContinues_on_stopped_status :
    (pollStep "p1" "stopped"
        { projects := [alphaProject], polling := ["p1"], activeProjects := ["p1"] }).2 = true
    ∧ "stopped" ∈ (["completed", "failed", "error", "stopped"] : List String) := by
  decide

/-- C4 amended: the poll step stops scheduling further polls exactly
when the reported status is `completed`, `failed` or `error`; any other
reported status (including a hypothetical `stopped`) schedules another
poll. -/
theorem pollStep_halts_iff (pid reportedStatus : String) (st : HomeState) :
    (pollStep pid reportedStatus st).2 = false ↔
      (reportedStatus = "completed" ∨ reportedStatus = "failed" ∨ reportedStatus = "error") := by
  have hstep : (pollStep pid reportedStatus st).2 = !(pollTerminal reportedStatus) := by
    rw [pollStep]
    split <;> simp_all
  rw [hstep, pollTerminal]
  simp only [Bool.not_eq_false', Bool.or_eq_true, beq_iff_eq]
  tauto

/-- C4 witness: the amended equivalence evaluated at a completed
status. -/
theorem pollStep_halts_iff_witness :
    (pollStep "p1" "completed"
        { projects := [], polling := ["p1"], activeProjects := ["p1"] }).2 = false :=
  (pollStep_halts_iff "p1" "completed"
    { projects := [], polling := ["p1"], activeProjects := ["p1"] }).mpr (Or.inl rfl)

/-- C5 counterexample: a stored project at iteration 3 drops to
iteration 0 after `handleRegenerateProject`, so `currentIteration` is
not non-decreasing over state updates. -/
theorem regenerate_decreases_currentIteration :
    alphaProject.current_iteration = some 3
    ∧ ((getProject (handleRegenerateProject probeLen 99 "p1"
        { projects := [alphaProject], polling := [], activeProjects := [] }).projects
        "p1").bind Project.current_iteration = some 0)
    ∧ ¬(3 ≤ 0) := by
  decide

/-- C5 amended: the store enforces no monotonicity on
`current_iteration`; `handleRegenerateProject` resets it to 0 (a
decrease whenever it was positive), also resetting the status to
`processing` and clearing `test_results`. -/
theorem regenerate_resets_currentIteration (strLen : List Project → Nat) (now : Nat)
    (pid : String) (st : HomeState) (p : Project)
    (hnd : (st.projects.map Project.project_id).Nodup) (hp : p ∈ st.projects)
    (hid : p.project_id = pid) :
    ∀ q ∈ (handleRegenerateProject strLen now pid st).projects, q.project_id = pid →
      q.current_iteration = some 0 ∧ q.status = "processing" ∧ q.test_results = none := by
  intro q hq hqid
  rw [updateProjectSafely_eq_applyUpdate strLen now pid regenerateUpdate st.projects p hnd hp
    hid q hq hqid]
  exact ⟨rfl, rfl, rfl⟩

/-- C5 witness: the amended resetting fact evaluated at a project at
iteration 3. -/
theorem regenerate_resets_currentIteration_witness :
    (applyUpdate 99 alphaProject
      { regenerateUpdate with project_name := some alphaProject.project_name }).current_iteration
      = some 0 := by
  have h := regenerate_resets_currentIteration probeLen 99 "p1"
    { projects := [alphaProject], polling := [], activeProjects := [] } alphaProject
    (by decide) (by decide) rfl
  exact (h _ (by decide) rfl).1

/-- C6: Merge is idempotent — merging the replayed merge output of a
committed Iteration history yields the same final artifact, byte for
byte, as merging the history once. -/
theorem merge_idempotent (history : List FileSet) :
    merge (merge_input_replayed history) = merge history := by
  have hcong : ∀ p ∈ mergePaths history,
      (lastWrite (merge_input_replayed history) p).map (fun c => (p, c)) =
        (lastWrite history p).map (fun c => (p, c)) := by
    intro p hp
    rw [merge_input_replayed, lastWrite_singleton, lookup_merge history p hp]
  calc merge (merge_input_replayed history)
      = (mergePaths (merge_input_replayed history)).filterMap
          (fun p => (lastWrite (merge_input_replayed history) p).map (fun c => (p, c))) := rfl
    _ = (mergePaths history).filterMap
          (fun p => (lastWrite (merge_input_replayed history) p).map (fun c => (p, c))) := by
          rw [mergePaths_replayed]
    _ = (mergePaths history).filterMap
          (fun p => (lastWrite history p).map (fun c => (p, c))) :=
          List.filterMap_congr hcong
    _ = merge history := rfl

/-- C7: `forceCleanup` retains exactly the projects created after the
cutoff, capped at 100 (as a permutation, since persisting re-sorts),
and its removed count is the size of the list before cleanup minus the
number retained. -/
theorem forceCleanup_spec (strLen : List Project → Nat) (cutoff : Nat) (ps : List Project) :
    (forceCleanup strLen cutoff ps).1.Perm
        ((ps.filter (fun p => cutoff < p.created_at)).take 100)
    ∧ (forceCleanup strLen cutoff ps).2.1 =
        ps.length - (forceCleanup strLen cutoff ps).1.length
    ∧ (forceCleanup strLen cutoff ps).1.length ≤ 100
    ∧ ∀ q ∈ (forceCleanup strLen cutoff ps).1, cutoff < q.created_at := by
  have hlen : ((ps.filter (fun p => cutoff < p.created_at)).take 100).length ≤ 100 := by
    rw [List.length_take]
    exact Nat.min_le_left _ _
  have hsave : saveProjects strLen ((ps.filter (fun p => cutoff < p.created_at)).take 100) =
      List.insertionSort newestFirst ((ps.filter (fun p => cutoff < p.created_at)).take 100) :=
    saveProjects_of_length_le strLen _ (by simp only [MAX_PROJECTS]; omega)
  have hperm : (forceCleanup strLen cutoff ps).1.Perm
      ((ps.filter (fun p => cutoff < p.created_at)).take 100) := by
    show (saveProjects strLen _).Perm _
    rw [hsave]
    exact List.perm_insertionSort newestFirst _
  refine ⟨hperm, ?_, ?_, ?_⟩
  · show ps.length - ((ps.filter (fun p => cutoff < p.created_at)).take 100).length =
      ps.length - (forceCleanup strLen cutoff ps).1.length
    rw [hperm.length_eq]
  · rw [hperm.length_eq]
    exact hlen
  · intro q hq
    have hq2 : q ∈ (ps.filter (fun p => cutoff < p.created_at)).take 100 := hperm.subset hq
    have hq3 : q ∈ ps.filter (fun p => cutoff < p.created_at) := List.take_subset _ _ hq2
    have := List.of_mem_filter hq3
    simpa using this

/-- C7 witness: the retained-projects property evaluated at a concrete
store. -/
theorem forceCleanup_spec_witness : 2 < alphaProject.created_at :=
  (forceCleanup_spec probeLen 2 [alphaProject]).2.2.2 alphaProject (by decide)

/-- C8: `trackActiveProject` reports success but writes under
`ACTIVE_PROJECTS_KEY` (`ai_code_generator_active_projects`) while
`getActiveProjects` reads the literal key `active_projects`, so a
tracked project id is never visible through `getActiveProjects` (and
hence never seen by `syncActiveProjects`). -/
theorem trackActiveProject_not_visible :
    (trackActiveProject "p1" ([] : LocalStorage)).1 = true
    ∧ getActiveProjects (trackActiveProject "p1" ([] : LocalStorage)).2 = []
    ∧ "p1" ∉ getActiveProjects (trackActiveProject "p1" ([] : LocalStorage)).2 := by
  decide

/-- Invariants of the try-block attempt list: at most `MAX_PROJECTS`
(200) entries, sorted newest-first by `created_at`, and at most
`MAX_PROJECTS / 2` (100) entries whenever the serialization of the
length-limited list exceeds `MAX_STORAGE_SIZE / 2` (4 MB). -/
theorem saveProjects_attempt_invariants (strLen : List Project → Nat) (ps : List Project) :
    (saveProjects strLen ps).length ≤ MAX_PROJECTS
    ∧ List.Sorted newestFirst (saveProjects strLen ps)
    ∧ (strLen ((List.insertionSort newestFirst ps).take MAX_PROJECTS) > MAX_STORAGE_SIZE / 2 →
        (saveProjects strLen ps).length ≤ MAX_PROJECTS / 2) := by
  have hsorted : List.Sorted newestFirst (List.insertionSort newestFirst ps) :=
    List.sorted_insertionSort newestFirst ps
  refine ⟨?_, ?_, ?_⟩
  · unfold saveProjects
    dsimp only
    split
    · rw [List.length_take]
      calc Nat.min (MAX_PROJECTS / 2) _ ≤ MAX_PROJECTS / 2 := Nat.min_le_left _ _
        _ ≤ MAX_PROJECTS := Nat.div_le_self _ _
    · rw [List.length_take]
      exact Nat.min_le_left _ _
  · unfold saveProjects
    dsimp only
    split
    · exact List.Pairwise.sublist
        ((List.take_sublist _ _).trans (List.take_sublist _ _)) hsorted
    · exact List.Pairwise.sublist (List.take_sublist _ _) hsorted
  · intro hbig
    unfold saveProjects
    dsimp only
    rw [if_pos hbig, List.length_take]
    exact Nat.min_le_left _ _

/-- C10: for a project already in the store, `updateProjectSafely`
keeps the stored `project_name` unchanged whatever name the update
carries, while the other fields of the update are applied (status,
current_iteration and stopped_by_user shown here). -/
theorem updateProjectSafely_preserves_project_name (strLen : List Project → Nat) (now : Nat)
    (pid : String) (newData : ProjectUpdate) (ps : List Project) (p : Project)
    (hnd : (ps.map Project.project_id).Nodup) (hp : p ∈ ps) (hid : p.project_id = pid) :
    ∀ q ∈ updateProjectSafely strLen now pid newData ps, q.project_id = pid →
      q.project_name = p.project_name
      ∧ q.status = newData.status.getD p.status
      ∧ q.current_iteration = newData.current_iteration.getD p.current_iteration
      ∧ q.stopped_by_user = newData.stopped_by_user.getD p.stopped_by_user := by
  intro q hq hqid
  rw [updateProjectSafely_eq_applyUpdate strLen now pid newData ps p hnd hp hid q hq hqid]
  exact ⟨rfl, rfl, rfl, rfl⟩

/-- C10 witness: an update carrying a new name leaves the stored name
unchanged. -/
theorem updateProjectSafely_preserves_project_name_witness :
    (applyUpdate 99 alphaProject
      { renameUpdate with project_name := some alphaProject.project_name }).project_name =
      alphaProject.project_name := by
  have h := updateProjectSafely_preserves_project_name probeLen 99 "p1" renameUpdate
    [alphaProject] alphaProject (by decide) (by decide) rfl
  exact (h _ (by decide) rfl).1

/-- C9 counterexample: when the attempted write throws
`QuotaExceededError`, the emergency branch of `saveProjects` persists
the first 50 entries of the raw input — here `[alphaProject,
betaProject]`, older project first — and still returns `true`: a
successful call whose persisted list is not sorted newest-first. -/
theorem saveProjects_emergency_unsorted :
    (saveProjectsCatch probeLen quotaOnSortedPair [alphaProject, betaProject]).1 = true
    ∧ (saveProjectsCatch probeLen quotaOnSortedPair [alphaProject, betaProject]).2 =
        some [alphaProject, betaProject]
    ∧ ¬ List.Sorted newestFirst [alphaProject, betaProject] := by
  decide

/-- C9 amended: every list persisted by a successful `saveProjects`
call has at most `MAX_PROJECTS` (200) entries.  When the attempted
write does not hit the quota, the persisted list is the sorted,
limited attempt — sorted newest-first by `created_at`, and capped at
`MAX_PROJECTS / 2` (100) entries whenever the serialization of the
limited list exceeds `MAX_STORAGE_SIZE / 2` (4 MB).  When the attempt
hits the quota, the emergency fallback persists the first 50 entries
of the raw input, in input order (not necessarily sorted), and still
reports success. -/
theorem saveProjectsCatch_invariants (strLen : List Project → Nat)
    (quotaFails : List Project → Bool) (ps : List Project) (persisted : List Project)
    (h : (saveProjectsCatch strLen quotaFails ps).2 = some persisted) :
    persisted.length ≤ MAX_PROJECTS
    ∧ (quotaFails (saveProjects strLen ps) = false →
        List.Sorted newestFirst persisted
        ∧ (strLen ((List.insertionSort newestFirst ps).take MAX_PROJECTS) >
            MAX_STORAGE_SIZE / 2 → persisted.length ≤ MAX_PROJECTS / 2))
    ∧ (quotaFails (saveProjects strLen ps) = true → persisted.length ≤ 50) := by
  have hmain := saveProjects_attempt_invariants strLen ps
  by_cases hq : quotaFails (saveProjects strLen ps) = true
  · by_cases hq2 : quotaFails (ps.take 50) = true
    · have heq : saveProjectsCatch strLen quotaFails ps = (false, none) := by
        unfold saveProjectsCatch
        simp [hq, hq2]
      rw [heq] at h
      exact absurd h (by simp)
    · have heq : saveProjectsCatch strLen quotaFails ps = (true, some (ps.take 50)) := by
        unfold saveProjectsCatch
        simp [hq, hq2]
      rw [heq] at h
      have hp : persisted = ps.take 50 := by
        have h2 := h
        simp only [Option.some.injEq] at h2
        exact h2.symm
      refine ⟨?_, ?_, ?_⟩
      · rw [hp, List.length_take]
        calc Nat.min 50 ps.length ≤ 50 := Nat.min_le_left _ _
          _ ≤ MAX_PROJECTS := by simp [MAX_PROJECTS]
      · intro hfalse
        rw [hfalse] at hq
        exact absurd hq (by simp)
      · intro _
        rw [hp, List.length_take]
        exact Nat.min_le_left _ _
  · have hqf : quotaFails (saveProjects strLen ps) = false := by
      simpa using hq
    have heq : saveProjectsCatch strLen quotaFails ps =
        (true, some (saveProjects strLen ps)) := by
      unfold saveProjectsCatch
      simp [hqf]
    rw [heq] at h
    have hp : persisted = saveProjects strLen ps := by
      have h2 := h
      simp only [Option.some.injEq] at h2
      exact h2.symm
    refine ⟨?_, ?_, ?_⟩
    · rw [hp]
      exact hmain.1
    · intro _
      constructor
      · rw [hp]
        exact hmain.2.1
      · intro hbig
        rw [hp]
        exact hmain.2.2 hbig
    · intro htrue
      rw [hqf] at htrue
      exact absurd htrue (by simp)

/-- C9 witness: the amended invariants evaluated at the concrete
quota-failure scenario, exercising the emergency-branch cap. -/
theorem saveProjectsCatch_invariants_witness :
    (([alphaProject, betaProject] : List Project).take 50).length ≤ 50 :=
  (saveProjectsCatch_invariants probeLen quotaOnSortedPair [alphaProject, betaProject]
    (([alphaProject, betaProject] : List Project).take 50) (by decide)).2.2 (by decide)
